import Mathlib

/-!
# Verification of the graphiql-explorer synchronization engine

Shallow embedding of `src/Explorer.js` (and the scalar-input plugin
registry in the second source file).  GraphQL AST nodes become inductive
types; JavaScript object identity (the `===` / `!==` comparisons used by
the code to filter and replace sibling nodes) is modelled by giving every
allocated AST node a numeric `id`, with the convention that distinct
allocations receive distinct ids.  Functions that in the source may throw
are modelled with `Option`/`Except`; component instance fields
(`_previousSelection`, `_previousOperationDef`, the parse memo) become
explicit state passed in and returned.
-/

/-- GraphQL value AST nodes (`ValueNode` in graphql-js).  An `objectValue`
holds its `ObjectFieldNode` children as (name, value) pairs. -/
inductive ValueNode where
  | stringValue (value : String)
  | intValue (value : String)
  | floatValue (value : String)
  | booleanValue (value : Bool)
  | enumValue (value : String)
  | variableValue (name : String)
  | objectValue (fields : List (String × ValueNode))

/-- `ArgumentNode`: a named argument of a field selection. -/
structure ArgumentNode where
  name : String
  value : ValueNode

/-- Selection AST nodes (`FieldNode` / `InlineFragmentNode`).  The `id`
component models JavaScript object identity: the code compares selection
nodes with `===`/`!==`, never structurally. -/
inductive SelectionNode where
  | field (id : Nat) (fieldAlias : Option String) (name : String)
      (arguments : List ArgumentNode) (directives : List String)
      (selectionSet : Option (List SelectionNode))
  | inlineFragment (id : Nat) (typeCondition : String)
      (directives : List String) (selectionSet : List SelectionNode)

/-- The object identity of a selection node (see module doc). -/
def SelectionNode.nodeId : SelectionNode → Nat
  | .field i _ _ _ _ _ => i
  | .inlineFragment i _ _ _ => i

/-- GraphQL input types as consumed by the explorer: scalars and enums
carry their `parseValue` function (modelled as `String → Option String`,
`none` meaning the parse threw; the `String` result stands for the
JavaScript `String(...)` coercion of the parsed value), input objects
carry their fields as (name, type, hasDefaultValue) triples, and
`listOf`/`nonNull` are the wrapping types. -/
inductive InputType where
  | scalar (name : String) (parseFn : String → Option String)
  | enum (name : String) (enumValues : List String) (parseFn : String → Option String)
  | inputObject (name : String) (inputFields : List (String × InputType × Bool))
  | listOf (ofType : InputType)
  | nonNull (ofType : InputType)

/-- graphql-js `isNonNullType`. -/
def isNonNullType : InputType → Bool
  | .nonNull _ => true
  | _ => false

/-- `unwrapInputType` (Explorer.js:118): strip all List/NonNull wrappers. -/
def unwrapInputType : InputType → InputType
  | .listOf t => unwrapInputType t
  | .nonNull t => unwrapInputType t
  | t => t

/-- A schema argument (`GraphQLArgument`): name, input type, and whether a
default value is declared (`defaultValue !== undefined`). -/
structure SchemaArg where
  name : String
  type : InputType
  hasDefault : Bool

/-- `isRequiredArgument` (Explorer.js:106): NonNull-wrapped and no default. -/
def isRequiredArgument (arg : SchemaArg) : Bool :=
  isNonNullType arg.type && !arg.hasDefault

/-- graphql-js `isRequiredInputField` applied to an input-object field
given as a (type, hasDefault) pair. -/
def isRequiredInputField (t : InputType) (hasDefault : Bool) : Bool :=
  isNonNullType t && !hasDefault

/-- A schema field (`GraphQLField`): name and ordered argument list (its
output type does not participate in the operations verified here). -/
structure SchemaField where
  name : String
  args : List SchemaArg

/-- `defaultValue` (Explorer.js:303): canonical seed literal for a leaf
(enum or scalar) type.  `getValues()[0].name` is modelled by `headD ""`;
a valid GraphQL schema guarantees at least one enum value.  The final
catch-all covers inputs outside the source's Flow domain
(`GraphQLEnumType | GraphQLScalarType`). -/
def defaultValue : InputType → ValueNode
  | .enum _ enumValues _ => .enumValue (enumValues.headD "")
  | .scalar name _ =>
    match name with
    | "String" => .stringValue ""
    | "Float" => .floatValue "1.5"
    | "Int" => .intValue "10"
    | "Boolean" => .booleanValue false
    | _ => .stringValue ""
  | _ => .stringValue ""

mutual

/-- The seed value produced for one required argument / input field after
unwrapping its type (Explorer.js:758-785 and 727-756 dispatch on
`unwrapInputType`; here the wrapper recursion is inlined, which is
equivalent since unwrapping terminates at a scalar, enum or input
object — see `requiredInputValue_unwrap`). -/
def requiredInputValue : InputType → ValueNode
  | .scalar name parseFn => defaultValue (.scalar name parseFn)
  | .enum name enumValues parseFn => defaultValue (.enum name enumValues parseFn)
  | .inputObject _ inputFields => .objectValue (defaultInputObjectFields inputFields)
  | .listOf t => requiredInputValue t
  | .nonNull t => requiredInputValue t

/-- `defaultInputObjectFields` (Explorer.js:727): one ObjectField per
required input field, recursively defaulted. -/
def defaultInputObjectFields : List (String × InputType × Bool) → List (String × ValueNode)
  | [] => []
  | (name, t, hasDefault) :: rest =>
    (if isRequiredInputField t hasDefault then [(name, requiredInputValue t)] else [])
      ++ defaultInputObjectFields rest

end

/-- `defaultArgs` (Explorer.js:758): one Argument per required argument of
the field, seeded via `defaultValue` (leaf) or a recursively defaulted
ObjectValue (input object).  The catch-all mirrors the source's skipping
of a required argument whose unwrapped type is neither an input object
nor a leaf (unreachable for well-formed input types). -/
def defaultArgs (field : SchemaField) : List ArgumentNode :=
  field.args.foldr
    (fun arg acc =>
      if isRequiredArgument arg then
        match unwrapInputType arg.type with
        | .inputObject _ inputFields =>
          ArgumentNode.mk arg.name (.objectValue (defaultInputObjectFields inputFields)) :: acc
        | .scalar name parseFn =>
          ArgumentNode.mk arg.name (defaultValue (.scalar name parseFn)) :: acc
        | .enum name enumValues parseFn =>
          ArgumentNode.mk arg.name (defaultValue (.enum name enumValues parseFn)) :: acc
        | _ => acc
      else acc)
    []

/-- `argValue` (Explorer.js:126): re-encode a raw input string as a typed
literal.  `jsonParseBoolean` models the `JSON.parse` call of the Boolean
branch, factored through its only observation: `some b` iff the parse
succeeded with the boolean `b`, `none` iff it threw or yielded a
non-boolean (both produce the literal `false` in the source).  For enums,
`parseFn` returning `none` models a throw or a falsy non-string result
(`undefined`/`null`), and an empty string result is the remaining falsy
case of the source's `if (parsedValue)` test. -/
def argValue (jsonParseBoolean : String → Option Bool)
    (argType : InputType) (value : String) : ValueNode :=
  match argType with
  | .scalar name parseFn =>
    match name with
    | "String" =>
      match parseFn value with
      | some parsed => .stringValue parsed
      | none => .stringValue value
    | "Float" =>
      match parseFn value with
      | some parsed => .floatValue parsed
      | none => .stringValue value
    | "Int" =>
      match parseFn value with
      | some parsed => .intValue parsed
      | none => .stringValue value
    | "Boolean" =>
      match jsonParseBoolean value with
      | some parsed => .booleanValue parsed
      | none => .booleanValue false
    | _ =>
      match parseFn value with
      | some parsed => .stringValue parsed
      | none => .stringValue value
  | .enum _ enumValues parseFn =>
    match parseFn value with
    | some parsedValue =>
      if parsedValue.isEmpty then .enumValue (enumValues.headD "")
      else .enumValue parsedValue
    | none => .enumValue (enumValues.headD "")
  | _ => .stringValue value

/-- GraphQL output types, as far as `defaultGetDefaultFieldNames` observes
them: named base kinds plus the List/NonNull wrappers. -/
inductive OutputType where
  | scalarT (name : String)
  | enumT (name : String)
  | objectT (name : String)
  | interfaceT (name : String)
  | unionT (name : String)
  | listOfT (ofType : OutputType)
  | nonNullT (ofType : OutputType)
deriving DecidableEq, Repr

/-- graphql-js `isLeafType`: Scalar or Enum, with no unwrapping. -/
def isLeafType : OutputType → Bool
  | .scalarT _ => true
  | .enumT _ => true
  | _ => false

/-- `unwrapOutputType` (Explorer.js:110): strip all List/NonNull wrappers. -/
def unwrapOutputType : OutputType → OutputType
  | .listOfT t => unwrapOutputType t
  | .nonNullT t => unwrapOutputType t
  | t => t

/-- The field map of an object type (`type.getFields()`), as an ordered
(name, type) list; `Object.keys` enumerates it in declared order and
property lookup `fields[n]` is `find?` on the name. -/
def FieldMap : Type := List (String × OutputType)

/-- `defaultGetDefaultFieldNames` (Explorer.js:68): the built-in
default-selection policy.  Note the last rule tests `isLeafType` on the
field's declared type directly, without unwrapping. -/
def defaultGetDefaultFieldNames (fields : List (String × OutputType)) : List String :=
  if (fields.find? (fun p => p.1 == "id")).isSome then
    ["id"] ++
      (if (fields.find? (fun p => p.1 == "email")).isSome then ["email"]
       else if (fields.find? (fun p => p.1 == "name")).isSome then ["name"]
       else [])
  else if (fields.find? (fun p => p.1 == "edges")).isSome then ["edges"]
  else if (fields.find? (fun p => p.1 == "node")).isSome then ["node"]
  else if (fields.find? (fun p => p.1 == "nodes")).isSome then ["nodes"]
  else ((fields.filter (fun p => isLeafType p.2)).map (fun p => p.1)).take 2

/-- `FieldView._getSelection` (Explorer.js:808): first sibling that is a
Field node and carries the schema field's name. -/
def getSelection (fieldName : String) (selections : List SelectionNode) : Option SelectionNode :=
  selections.find? (fun selection =>
    match selection with
    | .field _ _ name _ _ _ => fieldName == name
    | _ => false)

/-- The persistent instance state of a `FieldView`: its one-slot undo
cache `_previousSelection`. -/
structure FieldViewState where
  previousSelection : Option SelectionNode

/-- Models the `selection !== previousSelection` comparison, where
`previousSelection` may be `undefined` (in which case nothing matches). -/
def sameNodeAs (previousSelection : Option SelectionNode) (s : SelectionNode) : Bool :=
  match previousSelection with
  | some p => s.nodeId == p.nodeId
  | none => false

/-- `FieldView._removeFieldFromSelections` (Explorer.js:799): overwrite
the undo slot with the found node (or its absence) and filter it out of
the sibling list by object identity.  The prior slot content `st` is
discarded unconditionally. -/
def fieldViewRemove (fieldName : String) (st : FieldViewState)
    (selections : List SelectionNode) : FieldViewState × List SelectionNode :=
  let previousSelection := getSelection fieldName selections
  (FieldViewState.mk previousSelection,
    selections.filter (fun selection => !(sameNodeAs previousSelection selection)))

/-- `FieldView._addFieldToSelections` (Explorer.js:789): append the
undo-cached node if present, else a fresh Field node with default
arguments.  `freshId` is the identity of the newly allocated node.  The
undo slot is read but not written. -/
def fieldViewAdd (field : SchemaField) (freshId : Nat) (st : FieldViewState)
    (selections : List SelectionNode) : FieldViewState × List SelectionNode :=
  (st,
    selections ++
      [st.previousSelection.getD
        (.field freshId none field.name (defaultArgs field) [] none)])

/-- The replacement node built by `FieldView._setArguments`
(Explorer.js:830-838): a new Field object (fresh identity) copying alias,
directives, name and selection set from the found selection, with the new
argument list. -/
def replaceFieldArguments (selection : SelectionNode)
    (argumentNodes : List ArgumentNode) (freshId : Nat) : SelectionNode :=
  match selection with
  | .field _ a n _ d ss => .field freshId a n argumentNodes d ss
  | s => s

/-- `FieldView._setArguments` (Explorer.js:822): if no selection matches,
no mutation is emitted (the sibling list is left as is); otherwise map
the siblings, swapping the found node (by identity) for the rebuilt one. -/
def fieldViewSetArguments (fieldName : String) (argumentNodes : List ArgumentNode)
    (freshId : Nat) (selections : List SelectionNode) : List SelectionNode :=
  match getSelection fieldName selections with
  | none => selections
  | some selection =>
    selections.map (fun s =>
      if s.nodeId == selection.nodeId then
        replaceFieldArguments selection argumentNodes freshId
      else s)

/-- Operation kinds of an `OperationDefinitionNode`. -/
inductive OperationKind where
  | query
  | mutation
  | subscription
deriving DecidableEq, BEq, Repr

/-- A document definition: an operation definition (id models object
identity; `opName` the optional operation name; `selections` its
selection set) or any other definition kind, passed through untouched. -/
inductive Definition where
  | operation (id : Nat) (operation : OperationKind) (opName : Option String)
      (selections : List SelectionNode)
  | otherDefinition (id : Nat) (tag : String)

/-- Object identity of a definition. -/
def Definition.defId : Definition → Nat
  | .operation i _ _ _ => i
  | .otherDefinition i _ => i

/-- Selection set of a definition (empty for non-operations). -/
def Definition.defSelections : Definition → List SelectionNode
  | .operation _ _ _ sels => sels
  | .otherDefinition _ _ => []

/-- The spread `{...operationDef, selectionSet: {...selectionSet,
selections}}` (Explorer.js:1038): same operation kind and name, new
selections. -/
def Definition.withSelections : Definition → List SelectionNode → Definition
  | .operation i o n _, sels => .operation i o n sels
  | d, _ => d

/-- The predicate of `RootView._getOperationDef`'s `find`
(Explorer.js:1001): an OperationDefinition of the requested kind. -/
def isOperationDefinitionOfKind (op : OperationKind) : Definition → Bool
  | .operation _ o _ _ => o == op
  | .otherDefinition _ _ => false

/-- `RootView._getOperationDef` (Explorer.js:1000): the first matching
definition, or a freshly synthesized empty one (fresh identity `freshId`,
no name, empty selection set). -/
def getOperationDef (op : OperationKind) (freshId : Nat)
    (doc : List Definition) : Definition :=
  match doc.find? (isOperationDefinitionOfKind op) with
  | some d => d
  | none => .operation freshId op none []

/-- `RootView._modifySelections` (Explorer.js:1020): returns the new
`_previousOperationDef` slot and the document's new definition list (what
is then `print`ed and emitted).  Identity comparisons (`!==`, `===`) are
id comparisons. -/
def modifySelections (op : OperationKind) (freshId : Nat)
    (previousOperationDef : Option Definition) (selections : List SelectionNode)
    (doc : List Definition) : Option Definition × List Definition :=
  let operationDef0 := getOperationDef op freshId doc
  let operationDef :=
    match previousOperationDef with
    | some p => if operationDef0.defSelections.length = 0 then p else operationDef0
    | none => operationDef0
  if selections.length = 0 then
    (some operationDef, doc.filter (fun d => !(d.defId == operationDef.defId)))
  else
    let newOperationDef := operationDef.withSelections selections
    if doc.any (fun d => d.defId == operationDef.defId) then
      (previousOperationDef,
        doc.map (fun d => if d.defId == operationDef.defId then newOperationDef else d))
    else
      (previousOperationDef, newOperationDef :: doc)

/-- A document (`DocumentNode`): its ordered definition list. -/
structure DocumentNode where
  definitions : List Definition

/-- `DEFAULT_DOCUMENT` (Explorer.js:963): a document with no definitions. -/
def DEFAULT_DOCUMENT : DocumentNode := DocumentNode.mk []

/-- The source's `!text.trim()` test: the trimmed text is empty iff every
character of the text is whitespace. -/
def isWhitespaceOnly (s : String) : Bool :=
  s.data.all (fun c => c.isWhitespace)

/-- `parseQuery` (Explorer.js:952), parameterized by the external GraphQL
parser `parse` (an `Except.error` models a parser throw): `none` for
empty/whitespace-only text, otherwise the parse outcome. -/
def parseQuery (parse : String → Except Unit DocumentNode)
    (text : String) : Option (Except Unit DocumentNode) :=
  if isWhitespaceOnly text then none
  else some (parse text)

/-- The non-memoized path of `memoizeParseQuery` (Explorer.js:971-986). -/
def memoizeParseQueryMiss (parse : String → Except Unit DocumentNode)
    (memo : Option (String × DocumentNode)) (query : String) :
    Option (String × DocumentNode) × DocumentNode :=
  match parseQuery parse query with
  | none => (memo, DEFAULT_DOCUMENT)
  | some (.error _) =>
    match memo with
    | some (_, d) => (memo, d)
    | none => (memo, DEFAULT_DOCUMENT)
  | some (.ok result) => (some (query, result), result)

/-- `memoizeParseQuery` (Explorer.js:968): returns the new memo state
(`parseQueryMemoize`) and the resulting document. -/
def memoizeParseQuery (parse : String → Except Unit DocumentNode)
    (memo : Option (String × DocumentNode)) (query : String) :
    Option (String × DocumentNode) × DocumentNode :=
  match memo with
  | some (q, d) =>
    if q = query then (memo, d)
    else memoizeParseQueryMiss parse memo query
  | none => memoizeParseQueryMiss parse memo query

/-- A scalar-input plugin of the second source file: a capability
predicate `canProcess` and a renderer. -/
structure ScalarInputPlugin (Arg Style Change Rendering : Type) where
  canProcess : Arg → Bool
  render : Arg → Style → Change → Rendering

/-- The `ScalarInputPluginManager` constructor: the enabled plugin list is
the caller-supplied list, with the bundled plugins pushed at the end when
`enableBundledPlugins` is set.  The bundled list (`[DatePlugin]` in the
source, whose module is external) is a parameter. -/
def mkScalarInputPluginManager {Arg Style Change Rendering : Type}
    (bundledPlugins : List (ScalarInputPlugin Arg Style Change Rendering))
    (plugins : List (ScalarInputPlugin Arg Style Change Rendering))
    (enableBundledPlugins : Bool) :
    List (ScalarInputPlugin Arg Style Change Rendering) :=
  if enableBundledPlugins then plugins ++ bundledPlugins else plugins

/-- `ScalarInputPluginManager.process`: the first capable plugin's
rendering, or `none` (the source's `null`). -/
def processScalarInput {Arg Style Change Rendering : Type}
    (plugins : List (ScalarInputPlugin Arg Style Change Rendering))
    (arg : Arg) (styleConfig : Style) (onChangeHandler : Change) : Option Rendering :=
  match plugins.find? (fun plugin => plugin.canProcess arg) with
  | some handler => some (handler.render arg styleConfig onChangeHandler)
  | none => none

/-! ## Claim-side (spec-text) definitions -/

/-- Presence test used by the spec-text policy definitions below. -/
def hasFieldNamed (fields : List (String × OutputType)) (n : String) : Bool :=
  fields.any (fun p => p.1 == n)

/-- The default-selection policy exactly as claim C2 states it, rule 5
reading "fields whose type unwraps (through List/NonNull) to a Scalar or
Enum type". -/
def claimGetDefaultFieldNames (fields : List (String × OutputType)) : List String :=
  if hasFieldNamed fields "id" then
    "id" ::
      (if hasFieldNamed fields "email" then ["email"]
       else if hasFieldNamed fields "name" then ["name"]
       else [])
  else if hasFieldNamed fields "edges" then ["edges"]
  else if hasFieldNamed fields "node" then ["node"]
  else if hasFieldNamed fields "nodes" then ["nodes"]
  else ((fields.filter (fun p => isLeafType (unwrapOutputType p.2))).map Prod.fst).take 2

/-- Claim C2 amended: identical to `claimGetDefaultFieldNames` except that
rule 5 tests the field's declared type directly (no unwrapping), which is
what `isLeafType(fields[fieldName].type)` does in the source. -/
def amendedGetDefaultFieldNames (fields : List (String × OutputType)) : List String :=
  if hasFieldNamed fields "id" then
    "id" ::
      (if hasFieldNamed fields "email" then ["email"]
       else if hasFieldNamed fields "name" then ["name"]
       else [])
  else if hasFieldNamed fields "edges" then ["edges"]
  else if hasFieldNamed fields "node" then ["node"]
  else if hasFieldNamed fields "nodes" then ["nodes"]
  else ((fields.filter (fun p => isLeafType p.2)).map Prod.fst).take 2

/-! ## Helper lemmas (shared) -/

theorem find?_isSome_eq_any {α : Type} (p : α → Bool) (l : List α) :
    (l.find? p).isSome = l.any p := by
  induction l with
  | nil => rfl
  | cons a l ih =>
    by_cases h : p a = true
    · simp [List.find?_cons, h]
    · simp only [Bool.not_eq_true] at h
      simp [List.find?_cons, h, ih]

theorem unwrapInputType_base : (t : InputType) →
    (∃ n p, unwrapInputType t = .scalar n p) ∨
    (∃ n vs p, unwrapInputType t = .enum n vs p) ∨
    (∃ n fs, unwrapInputType t = .inputObject n fs)
  | .scalar n p => Or.inl ⟨n, p, rfl⟩
  | .enum n vs p => Or.inr (Or.inl ⟨n, vs, p, rfl⟩)
  | .inputObject n fs => Or.inr (Or.inr ⟨n, fs, rfl⟩)
  | .listOf t => unwrapInputType_base t
  | .nonNull t => unwrapInputType_base t

theorem requiredInputValue_unwrap : (t : InputType) →
    requiredInputValue (unwrapInputType t) = requiredInputValue t
  | .scalar _ _ => rfl
  | .enum _ _ _ => rfl
  | .inputObject _ _ => rfl
  | .listOf t => requiredInputValue_unwrap t
  | .nonNull t => requiredInputValue_unwrap t

theorem length_filter_not_add_countP {α : Type} (p : α → Bool) (l : List α) :
    (l.filter (fun s => !(p s))).length + l.countP p = l.length := by
  induction l with
  | nil => rfl
  | cons a l ih =>
    cases h : p a <;> simp [List.filter_cons, List.countP_cons, h] <;> omega

/-! ## C2: built-in default-selection policy -/

/-- C2 (amended): the built-in default-selection policy follows the
claim's first-matching rules — `id` (plus `email` else `name`), then
`edges`, `node`, `nodes` — and otherwise selects up to the first two
fields whose *declared* type is itself a Scalar or Enum type (the source
applies `isLeafType` without unwrapping List/NonNull), in declared field
order. -/
theorem getDefaultFieldNames_direct_leaf (fields : List (String × OutputType)) :
    defaultGetDefaultFieldNames fields = amendedGetDefaultFieldNames fields := by
  unfold defaultGetDefaultFieldNames amendedGetDefaultFieldNames hasFieldNamed
  simp only [find?_isSome_eq_any]
  rfl

/-- C2 counterexample: for an object type with fields
`a : Int!` (NonNull-wrapped scalar) and `b : String`, the code selects
only `["b"]`, while the claim's rule 5 (leaf test after unwrapping)
selects `["a", "b"]`. -/
theorem getDefaultFieldNames_claim_counterexample :
    defaultGetDefaultFieldNames
        [("a", .nonNullT (.scalarT "Int")), ("b", .scalarT "String")] = ["b"] ∧
    claimGetDefaultFieldNames
        [("a", .nonNullT (.scalarT "Int")), ("b", .scalarT "String")] = ["a", "b"] ∧
    defaultGetDefaultFieldNames
        [("a", .nonNullT (.scalarT "Int")), ("b", .scalarT "String")] ≠
      claimGetDefaultFieldNames
        [("a", .nonNullT (.scalarT "Int")), ("b", .scalarT "String")] := by
  refine ⟨rfl, rfl, ?_⟩
  decide

/-! ## C5: default arguments on field add -/

theorem defaultArgs_eq_filter_map (field : SchemaField) :
    defaultArgs field =
      (field.args.filter (fun a => isRequiredArgument a)).map
        (fun a => ArgumentNode.mk a.name (requiredInputValue a.type)) := by
  obtain ⟨nm, args⟩ := field
  induction args with
  | nil => rfl
  | cons a rest ih =>
    simp only [defaultArgs, List.foldr_cons, List.filter_cons] at ih ⊢
    by_cases h : isRequiredArgument a = true
    · rw [if_pos h, if_pos h, List.map_cons, ← ih]
      rcases unwrapInputType_base a.type with ⟨n, p, hu⟩ | ⟨n, vs, p, hu⟩ | ⟨n, fs, hu⟩ <;>
        rw [hu, show requiredInputValue a.type = requiredInputValue (unwrapInputType a.type) from
          (requiredInputValue_unwrap a.type).symm, hu] <;> rfl
    · rw [if_neg h, if_neg h, ih]

/-- C5: adding a schema field with an empty undo slot produces a Field
node whose argument list has exactly one argument per required argument
(NonNull type, no declared default) and none for the others, each seeded
by the default-literal rules — Enum: first declared value; String: empty
string; Float: "1.5"; Int: "10"; Boolean: false; any other scalar: empty
string; input object: a recursively defaulted ObjectValue — with
List/NonNull wrappers unwrapped before dispatch. -/
theorem addField_seeds_required_args (field : SchemaField) (freshId : Nat)
    (selections : List SelectionNode) :
    fieldViewAdd field freshId (FieldViewState.mk none) selections =
      (FieldViewState.mk none,
        selections ++ [.field freshId none field.name (defaultArgs field) [] none]) ∧
    defaultArgs field =
      (field.args.filter (fun a => isRequiredArgument a)).map
        (fun a => ArgumentNode.mk a.name (requiredInputValue a.type)) ∧
    (∀ nm v0 vs p, requiredInputValue (InputType.enum nm (v0 :: vs) p) = .enumValue v0) ∧
    (∀ p, requiredInputValue (InputType.scalar "String" p) = .stringValue "") ∧
    (∀ p, requiredInputValue (InputType.scalar "Float" p) = .floatValue "1.5") ∧
    (∀ p, requiredInputValue (InputType.scalar "Int" p) = .intValue "10") ∧
    (∀ p, requiredInputValue (InputType.scalar "Boolean" p) = .booleanValue false) ∧
    (∀ nm p, nm ≠ "String" → nm ≠ "Float" → nm ≠ "Int" → nm ≠ "Boolean" →
      requiredInputValue (InputType.scalar nm p) = .stringValue "") ∧
    (∀ nm fs, requiredInputValue (InputType.inputObject nm fs) =
      .objectValue (defaultInputObjectFields fs)) ∧
    (∀ t, requiredInputValue (InputType.listOf t) = requiredInputValue t ∧
      requiredInputValue (InputType.nonNull t) = requiredInputValue t) := by
  refine ⟨rfl, defaultArgs_eq_filter_map field, fun nm v0 vs p => rfl,
    fun p => rfl, fun p => rfl, fun p => rfl, fun p => rfl, ?_,
    fun nm fs => rfl, fun t => ⟨rfl, rfl⟩⟩
  intro nm p h1 h2 h3 h4
  simp only [requiredInputValue, defaultValue]

/-- Concrete field for the C5 witness: required `a : Int!` and
`b : String!`, non-required `c : Int` (nullable) and `d : Int! = 3`
(declared default). -/
def c5Field : SchemaField :=
  SchemaField.mk "createThing"
    [SchemaArg.mk "a" (.nonNull (.scalar "Int" (fun _ => none))) false,
     SchemaArg.mk "b" (.nonNull (.scalar "String" (fun s => some s))) false,
     SchemaArg.mk "c" (.scalar "Int" (fun _ => none)) false,
     SchemaArg.mk "d" (.nonNull (.scalar "Int" (fun _ => none))) true]

theorem addField_seeds_required_args_witness :
    ("ID" ≠ "String" ∧ "ID" ≠ "Float" ∧ "ID" ≠ "Int" ∧ "ID" ≠ "Boolean") ∧
    requiredInputValue (InputType.scalar "ID" (fun _ => none)) = .stringValue "" ∧
    defaultArgs c5Field =
      [ArgumentNode.mk "a" (.intValue "10"), ArgumentNode.mk "b" (.stringValue "")] :=
  ⟨⟨by decide, by decide, by decide, by decide⟩,
   (addField_seeds_required_args c5Field 0 []).2.2.2.2.2.2.2.1 "ID" (fun _ => none)
     (by decide) (by decide) (by decide) (by decide),
   ((addField_seeds_required_args c5Field 0 []).2.1).trans rfl⟩

/-! ## C6: leaf-value encoder fallbacks -/

/-- C6: the leaf-value encoder `argValue` is total by construction (it is
a Lean function; every throwing path of the source is absorbed into a
fallback), and: an Int or Float scalar whose `parseValue` throws yields a
String literal holding the raw input verbatim; a Boolean argument whose
raw input does not parse to a JSON boolean (including a parse throw)
yields the literal `false`; an enum whose `parseValue` throws or yields a
falsy/empty result falls back to the enum's first declared value. -/
theorem argValue_fallbacks (jsonParseBoolean : String → Option Bool)
    (parseFn eparseFn : String → Option String) (en v0 : String)
    (vs : List String) (value : String) :
    (parseFn value = none →
      argValue jsonParseBoolean (.scalar "Int" parseFn) value = .stringValue value) ∧
    (parseFn value = none →
      argValue jsonParseBoolean (.scalar "Float" parseFn) value = .stringValue value) ∧
    (jsonParseBoolean value = none →
      argValue jsonParseBoolean (.scalar "Boolean" parseFn) value = .booleanValue false) ∧
    (eparseFn value = none ∨ eparseFn value = some "" →
      argValue jsonParseBoolean (.enum en (v0 :: vs) eparseFn) value = .enumValue v0) := by
  refine ⟨fun h => ?_, fun h => ?_, fun h => ?_, fun h => ?_⟩
  · simp [argValue, h]
  · simp [argValue, h]
  · simp [argValue, h]
  · have he : ("" : String).isEmpty = true := rfl
    rcases h with h | h <;> simp [argValue, h, he]

def c6ParseNone : String → Option String := fun _ => none

def c6JsonParseBoolean (s : String) : Option Bool :=
  if s = "true" then some true else if s = "false" then some false else none

theorem argValue_fallbacks_witness :
    (c6ParseNone "notanint" = none ∧ c6JsonParseBoolean "notabool" = none ∧
      c6ParseNone "MAGENTA" = none) ∧
    argValue c6JsonParseBoolean (.scalar "Int" c6ParseNone) "notanint" =
      .stringValue "notanint" ∧
    argValue c6JsonParseBoolean (.scalar "Boolean" c6ParseNone) "notabool" =
      .booleanValue false ∧
    argValue c6JsonParseBoolean (.enum "Color" ["RED", "GREEN"] c6ParseNone) "MAGENTA" =
      .enumValue "RED" :=
  ⟨⟨rfl, by decide, rfl⟩,
   (argValue_fallbacks c6JsonParseBoolean c6ParseNone c6ParseNone "Color" "RED" ["GREEN"]
     "notanint").1 rfl,
   (argValue_fallbacks c6JsonParseBoolean c6ParseNone c6ParseNone "Color" "RED" ["GREEN"]
     "notabool").2.2.1 (by decide),
   (argValue_fallbacks c6JsonParseBoolean c6ParseNone c6ParseNone "Color" "RED" ["GREEN"]
     "MAGENTA").2.2.2 (Or.inl rfl)⟩

/-! ## C1, C7, C9, C10: FieldView synchronizer -/

theorem fieldViewRemove_found (fieldName : String) (st : FieldViewState)
    (selections : List SelectionNode) (sel : SelectionNode)
    (hfind : getSelection fieldName selections = some sel) :
    fieldViewRemove fieldName st selections =
      (FieldViewState.mk (some sel),
        selections.filter (fun s => !(s.nodeId == sel.nodeId))) := by
  simp only [fieldViewRemove, hfind, sameNodeAs]

/-- C1: for a sibling list containing a Field node of the schema field
(`hfind`; `huniq` says the node's identity occurs once, as parsing
allocates each node exactly once), remove followed by add with no
intervening operation appends the removed node verbatim — its arguments
and nested selection set included, since the equality is on whole
nodes — after the other siblings, which are untouched and keep their
order; the remove overwrites the undo slot regardless of its prior
content `st`, and the add returns the slot unchanged. -/
theorem remove_then_add_restores_node (st : FieldViewState) (field : SchemaField)
    (freshId : Nat) (selections : List SelectionNode) (sel : SelectionNode)
    (hfind : getSelection field.name selections = some sel)
    (huniq : selections.countP (fun s => s.nodeId == sel.nodeId) = 1) :
    (fieldViewRemove field.name st selections).1.previousSelection = some sel ∧
    fieldViewAdd field freshId (fieldViewRemove field.name st selections).1
        (fieldViewRemove field.name st selections).2 =
      ((fieldViewRemove field.name st selections).1,
        selections.filter (fun s => !(s.nodeId == sel.nodeId)) ++ [sel]) ∧
    (∀ s ∈ selections, s.nodeId ≠ sel.nodeId →
      s ∈ (fieldViewRemove field.name st selections).2) ∧
    (fieldViewRemove field.name st selections).2.Sublist selections ∧
    (fieldViewRemove field.name st selections).2.length + 1 = selections.length := by
  rw [fieldViewRemove_found field.name st selections sel hfind]
  refine ⟨rfl, rfl, ?_, ?_, ?_⟩
  · intro s hs hid
    simp only [List.mem_filter]
    exact ⟨hs, by simp [hid]⟩
  · exact List.filter_sublist _
  · have := length_filter_not_add_countP (fun s => s.nodeId == sel.nodeId) selections
    show (selections.filter (fun s => !(s.nodeId == sel.nodeId))).length + 1 =
      selections.length
    omega

def c1Inner : SelectionNode := .field 10 none "nested" [] [] none

def c1Sel : SelectionNode :=
  .field 1 none "foo" [ArgumentNode.mk "x" (.intValue "10")] [] (some [c1Inner])

def c1Before : SelectionNode := .field 0 none "bar" [] [] none

def c1After : SelectionNode := .field 2 none "baz" [] [] none

def c1Sels : List SelectionNode := [c1Before, c1Sel, c1After]

def c1Field : SchemaField := SchemaField.mk "foo" []

theorem remove_then_add_restores_node_witness :
    (getSelection "foo" c1Sels = some c1Sel ∧
      c1Sels.countP (fun s => s.nodeId == c1Sel.nodeId) = 1) ∧
    fieldViewAdd c1Field 9 (fieldViewRemove "foo" (FieldViewState.mk none) c1Sels).1
        (fieldViewRemove "foo" (FieldViewState.mk none) c1Sels).2 =
      ((fieldViewRemove "foo" (FieldViewState.mk none) c1Sels).1,
        [c1Before, c1After, c1Sel]) :=
  ⟨⟨rfl, rfl⟩,
   ((remove_then_add_restores_node (FieldViewState.mk none) c1Field 9 c1Sels c1Sel
     rfl rfl).2.1).trans rfl⟩

/-- C7: when the sibling list holds two structurally identical Field
nodes (same alias, name, arguments, directives, selection set) that are
distinct objects (`i1 ≠ i2`), both named after the schema field, remove
caches the first-found one (`hfind`) in the undo slot and excludes
exactly that one — identity filtering — so the structurally identical
duplicate and every other sibling remain, in their original order. -/
theorem remove_filters_by_identity (st : FieldViewState) (field : SchemaField)
    (selections : List SelectionNode) (i1 i2 : Nat) (fieldAlias : Option String)
    (arguments : List ArgumentNode) (directives : List String)
    (selectionSet : Option (List SelectionNode))
    (hne : i1 ≠ i2)
    (hfind : getSelection field.name selections =
      some (.field i1 fieldAlias field.name arguments directives selectionSet))
    (hmem : (SelectionNode.field i2 fieldAlias field.name arguments directives
      selectionSet) ∈ selections)
    (huniq : selections.countP (fun s => s.nodeId == i1) = 1) :
    fieldViewRemove field.name st selections =
      (FieldViewState.mk
        (some (.field i1 fieldAlias field.name arguments directives selectionSet)),
        selections.filter (fun s => !(s.nodeId == i1))) ∧
    (SelectionNode.field i2 fieldAlias field.name arguments directives selectionSet) ∈
      (fieldViewRemove field.name st selections).2 ∧
    (∀ s ∈ selections, s.nodeId ≠ i1 →
      s ∈ (fieldViewRemove field.name st selections).2) ∧
    (fieldViewRemove field.name st selections).2.Sublist selections ∧
    (fieldViewRemove field.name st selections).2.length + 1 = selections.length := by
  rw [fieldViewRemove_found field.name st selections _ hfind]
  refine ⟨rfl, ?_, ?_, ?_, ?_⟩
  · simp only [List.mem_filter]
    exact ⟨hmem, by simp [SelectionNode.nodeId, Ne.symm hne]⟩
  · intro s hs hid
    simp only [List.mem_filter]
    refine ⟨hs, ?_⟩
    show (!(s.nodeId == i1)) = true
    simp [hid]
  · exact List.filter_sublist _
  · have := length_filter_not_add_countP (fun s => s.nodeId == i1) selections
    show (selections.filter (fun s => !(s.nodeId == i1))).length + 1 = selections.length
    omega

def c7Other : SelectionNode := .field 5 none "other" [] [] none

def c7Dup1 : SelectionNode :=
  .field 3 none "foo" [ArgumentNode.mk "x" (.intValue "10")] [] none

def c7Dup2 : SelectionNode :=
  .field 4 none "foo" [ArgumentNode.mk "x" (.intValue "10")] [] none

def c7Sels : List SelectionNode := [c7Other, c7Dup1, c7Dup2]

def c7Field : SchemaField := SchemaField.mk "foo" []

theorem remove_filters_by_identity_witness :
    ((3 : Nat) ≠ 4 ∧ getSelection "foo" c7Sels = some c7Dup1 ∧ c7Dup2 ∈ c7Sels ∧
      c7Sels.countP (fun s => s.nodeId == 3) = 1) ∧
    fieldViewRemove "foo" (FieldViewState.mk none) c7Sels =
      (FieldViewState.mk (some c7Dup1), [c7Other, c7Dup2]) :=
  ⟨⟨by decide, rfl, List.Mem.tail _ (List.Mem.tail _ (List.Mem.head _)), rfl⟩,
   ((remove_filters_by_identity (FieldViewState.mk none) c7Field c7Sels 3 4 none
     [ArgumentNode.mk "x" (.intValue "10")] [] none (by decide) rfl
     (List.Mem.tail _ (List.Mem.tail _ (List.Mem.head _))) rfl).1).trans rfl⟩

/-- C9: when no sibling is a Field node with the schema field's name,
remove leaves the sibling list untouched (the `!== undefined` filter
keeps every element) but still assigns the absent find result to the undo
slot, so whatever node an earlier remove had cached there (`st`) is lost. -/
theorem remove_absent_overwrites_slot (st : FieldViewState) (fieldName : String)
    (selections : List SelectionNode)
    (hnone : getSelection fieldName selections = none) :
    fieldViewRemove fieldName st selections = (FieldViewState.mk none, selections) := by
  simp only [fieldViewRemove, hnone, sameNodeAs]
  simp

def c9Cached : SelectionNode := .field 8 none "stale" [] [] none

def c9Sels : List SelectionNode := [.field 0 none "bar" [] [] none]

theorem remove_absent_overwrites_slot_witness :
    getSelection "qux" c9Sels = none ∧
    fieldViewRemove "qux" (FieldViewState.mk (some c9Cached)) c9Sels =
      (FieldViewState.mk none, c9Sels) :=
  ⟨rfl, remove_absent_overwrites_slot (FieldViewState.mk (some c9Cached)) "qux" c9Sels rfl⟩

/-- C10: bubbling a new argument list into the matching Field selection
replaces only that field's arguments: the rebuilt node reuses the found
node's alias, name, directives and nested selection set, and every
sibling whose identity differs passes through unchanged (the result is a
positional map, preserving length and order). -/
theorem setArguments_replaces_only_arguments (fieldName : String)
    (argumentNodes : List ArgumentNode) (freshId : Nat)
    (selections : List SelectionNode) (i : Nat) (fieldAlias : Option String)
    (arguments0 : List ArgumentNode) (directives : List String)
    (selectionSet : Option (List SelectionNode))
    (hfind : getSelection fieldName selections =
      some (.field i fieldAlias fieldName arguments0 directives selectionSet)) :
    fieldViewSetArguments fieldName argumentNodes freshId selections =
      selections.map (fun s =>
        if s.nodeId == i then
          .field freshId fieldAlias fieldName argumentNodes directives selectionSet
        else s) ∧
    (∀ s ∈ selections, s.nodeId ≠ i →
      s ∈ fieldViewSetArguments fieldName argumentNodes freshId selections) ∧
    (fieldViewSetArguments fieldName argumentNodes freshId selections).length =
      selections.length := by
  have h1 : fieldViewSetArguments fieldName argumentNodes freshId selections =
      selections.map (fun s =>
        if s.nodeId == i then
          .field freshId fieldAlias fieldName argumentNodes directives selectionSet
        else s) := by
    simp only [fieldViewSetArguments, hfind]
    rfl
  refine ⟨h1, ?_, ?_⟩
  · intro s hs hid
    rw [h1]
    refine List.mem_map.mpr ⟨s, hs, ?_⟩
    simp [hid]
  · rw [h1, List.length_map]

def c10Sub : SelectionNode := .field 7 none "sub" [] [] none

def c10Sel : SelectionNode :=
  .field 1 (some "al") "foo" [ArgumentNode.mk "x" (.intValue "1")] ["dir"]
    (some [c10Sub])

def c10Other : SelectionNode := .field 2 none "bar" [] [] none

def c10Sels : List SelectionNode := [c10Other, c10Sel]

theorem setArguments_replaces_only_arguments_witness :
    getSelection "foo" c10Sels =
      some (.field 1 (some "al") "foo" [ArgumentNode.mk "x" (.intValue "1")] ["dir"]
        (some [c10Sub])) ∧
    fieldViewSetArguments "foo" [ArgumentNode.mk "x" (.intValue "2")] 9 c10Sels =
      [c10Other,
       .field 9 (some "al") "foo" [ArgumentNode.mk "x" (.intValue "2")] ["dir"]
         (some [c10Sub])] :=
  ⟨rfl,
   ((setArguments_replaces_only_arguments "foo" [ArgumentNode.mk "x" (.intValue "2")] 9
     c10Sels 1 (some "al") [ArgumentNode.mk "x" (.intValue "1")] ["dir"]
     (some [c10Sub]) rfl).1).trans rfl⟩

/-! ## C3: operation-definition lifecycle -/

/-- The operation name of a definition (used to observe that a definition
was not freshly synthesized: synthesis never attaches a name). -/
def Definition.defOpName : Definition → Option String
  | .operation _ _ n _ => n
  | .otherDefinition _ _ => none

/-- C3 (amended): committing an empty selection list removes the located
operation definition from the definition list entirely (never serialized
empty) and remembers it in the undo slot; committing a non-empty list
when no definition of that kind exists inserts at the front a freshly
synthesized definition when the undo slot is empty, and the slot's
remembered definition (carrying the new selections) when the slot is
occupied; an existing matching definition (with a non-empty selection
set) is replaced in place.  `hfresh`-style hypotheses state that the
synthesized object's identity is a fresh allocation and that the
remembered definition is no longer part of the document. -/
theorem modifySelections_lifecycle (op : OperationKind) (freshId : Nat)
    (prev : Option Definition) (selections : List SelectionNode)
    (doc : List Definition) :
    (∀ od, doc.find? (isOperationDefinitionOfKind op) = some od →
      od.defSelections ≠ [] → selections = [] →
      modifySelections op freshId prev selections doc =
        (some od, doc.filter (fun d => !(d.defId == od.defId)))) ∧
    (doc.find? (isOperationDefinitionOfKind op) = none → prev = none →
      (∀ d ∈ doc, d.defId ≠ freshId) → selections ≠ [] →
      modifySelections op freshId prev selections doc =
        (none, Definition.operation freshId op none selections :: doc)) ∧
    (∀ p, doc.find? (isOperationDefinitionOfKind op) = none → prev = some p →
      (∀ d ∈ doc, d.defId ≠ p.defId) → selections ≠ [] →
      modifySelections op freshId prev selections doc =
        (some p, p.withSelections selections :: doc)) ∧
    (∀ od, doc.find? (isOperationDefinitionOfKind op) = some od →
      od.defSelections ≠ [] → selections ≠ [] →
      modifySelections op freshId prev selections doc =
        (prev, doc.map (fun d =>
          if d.defId == od.defId then od.withSelections selections else d))) := by
  refine ⟨?_, ?_, ?_, ?_⟩
  · intro od hfind hsel hempty
    subst hempty
    have h0 : getOperationDef op freshId doc = od := by
      simp [getOperationDef, hfind]
    have hlen : ¬od.defSelections.length = 0 := by
      intro h
      exact hsel (List.length_eq_zero.mp h)
    cases prev with
    | none => simp [modifySelections, h0]
    | some p => simp [modifySelections, h0, hlen]
  · intro hfind hprev hfresh hsel
    subst hprev
    have h0 : getOperationDef op freshId doc = Definition.operation freshId op none [] := by
      simp [getOperationDef, hfind]
    have hlen : ¬selections.length = 0 := by
      intro h
      exact hsel (List.length_eq_zero.mp h)
    have hany : (doc.any (fun d =>
        d.defId == (Definition.operation freshId op none []).defId)) = false := by
      rw [List.any_eq_false]
      intro d hd
      show ¬(d.defId == freshId) = true
      simp [hfresh d hd]
    simp [modifySelections, h0, hlen, hany, Definition.withSelections]
  · intro p hfind hprev hmem hsel
    subst hprev
    have h0 : getOperationDef op freshId doc = Definition.operation freshId op none [] := by
      simp [getOperationDef, hfind]
    have hlen : ¬selections.length = 0 := by
      intro h
      exact hsel (List.length_eq_zero.mp h)
    have hany : (doc.any (fun d => d.defId == p.defId)) = false := by
      rw [List.any_eq_false]
      intro d hd
      simp [hmem d hd]
    simp [modifySelections, h0, hlen, Definition.defSelections, hany]
  · intro od hfind hsel hselne
    have h0 : getOperationDef op freshId doc = od := by
      simp [getOperationDef, hfind]
    have hlen0 : ¬od.defSelections.length = 0 := by
      intro h
      exact hsel (List.length_eq_zero.mp h)
    have hlen : ¬selections.length = 0 := by
      intro h
      exact hselne (List.length_eq_zero.mp h)
    have hany : (doc.any (fun d => d.defId == od.defId)) = true := by
      rw [List.any_eq_true]
      exact ⟨od, List.mem_of_find?_eq_some hfind, by simp⟩
    cases prev with
    | none => simp [modifySelections, h0, hlen, hany]
    | some p => simp [modifySelections, h0, hlen0, hlen, hany]

def c3FieldA : SelectionNode := .field 0 none "viewer" [] [] none

def c3FieldB : SelectionNode := .field 1 none "user" [] [] none

/-- A previously removed (remembered) query definition carrying an
operation name — something fresh synthesis never produces. -/
def c3Richer : Definition := .operation 5 .query (some "Named") [c3FieldA]

/-- C3 counterexample: with the document holding no query definition and
the undo slot holding a previously removed named query, committing a
non-empty selection list does *not* insert a freshly synthesized
definition (which would carry no operation name): the single inserted
definition carries the remembered name `"Named"`. -/
theorem modifySelections_claim_counterexample :
    (modifySelections .query 99 (some c3Richer) [c3FieldB] []).2.map
        Definition.defOpName = [some "Named"] ∧
    ¬((modifySelections .query 99 (some c3Richer) [c3FieldB] []).2.map
        Definition.defOpName = [none]) := by
  refine ⟨rfl, ?_⟩
  decide

def c3OtherDef : Definition := .otherDefinition 7 "FragmentDefinition"

def c3Existing : Definition := .operation 3 .mutation none [c3FieldA]

theorem modifySelections_lifecycle_witness :
    (List.find? (isOperationDefinitionOfKind .query) [c3OtherDef] = none ∧
      (∀ d ∈ [c3OtherDef], d.defId ≠ 50) ∧ ([c3FieldB] : List SelectionNode) ≠ []) ∧
    modifySelections .query 50 none [c3FieldB] [c3OtherDef] =
      (none, [Definition.operation 50 .query none [c3FieldB], c3OtherDef]) ∧
    (List.find? (isOperationDefinitionOfKind .mutation) [c3Existing, c3OtherDef] =
      some c3Existing ∧ c3Existing.defSelections ≠ []) ∧
    modifySelections .mutation 60 none [] [c3Existing, c3OtherDef] =
      (some c3Existing, [c3OtherDef]) :=
  ⟨⟨rfl, by decide, by simp⟩,
   (modifySelections_lifecycle .query 50 none [c3FieldB] [c3OtherDef]).2.1 rfl rfl
     (by decide) (by simp),
   ⟨rfl, by simp [c3Existing, Definition.defSelections]⟩,
   ((modifySelections_lifecycle .mutation 60 none [] [c3Existing, c3OtherDef]).1
     c3Existing rfl (by simp [c3Existing, Definition.defSelections]) rfl).trans
     (by rfl)⟩

/-! ## C4: parse memoizer -/

/-- Reachable memo states: `parseQueryMemoize` is only ever assigned a
(text, document) pair on a successful parse of non-whitespace text. -/
def MemoInv (parse : String → Except Unit DocumentNode)
    (memo : Option (String × DocumentNode)) : Prop :=
  ∀ q d, memo = some (q, d) → ¬isWhitespaceOnly q = true ∧ parse q = .ok d

/-- C4: the memoizer is total (a Lean function; every parser throw is
absorbed), and from any reachable memo state: empty/whitespace-only text
yields the empty default document (zero definitions); a parse failure
yields the previously memoized document when one exists, else the empty
default; a successful parse of non-whitespace text updates the memo to
the new (text, document) pair and returns that document; and a call with
the memoized text returns the memoized document independently of the
parser (no re-parse).  The reachability invariant is preserved. -/
theorem memoizeParseQuery_spec (parse : String → Except Unit DocumentNode)
    (memo : Option (String × DocumentNode)) (query : String)
    (hinv : MemoInv parse memo) :
    DEFAULT_DOCUMENT.definitions = [] ∧
    (isWhitespaceOnly query = true →
      memoizeParseQuery parse memo query = (memo, DEFAULT_DOCUMENT)) ∧
    (∀ q d, memo = some (q, d) → ¬isWhitespaceOnly query = true →
      parse query = .error () →
      memoizeParseQuery parse memo query = (memo, d)) ∧
    (memo = none → parse query = .error () →
      memoizeParseQuery parse memo query = (none, DEFAULT_DOCUMENT)) ∧
    (∀ d, ¬isWhitespaceOnly query = true → parse query = .ok d →
      memoizeParseQuery parse memo query = (some (query, d), d)) ∧
    (∀ d, memo = some (query, d) →
      ∀ parse2, memoizeParseQuery parse2 memo query = (memo, d)) ∧
    MemoInv parse (memoizeParseQuery parse memo query).1 := by
  refine ⟨rfl, ?_, ?_, ?_, ?_, ?_, ?_⟩
  · intro hws
    match hm : memo with
    | none => simp [memoizeParseQuery, memoizeParseQueryMiss, parseQuery, hws]
    | some (q, d) =>
      have hq := (hinv q d rfl).1
      have hne : ¬q = query := by
        intro h
        rw [h] at hq
        exact hq hws
      simp [memoizeParseQuery, memoizeParseQueryMiss, parseQuery, hws, hne]
  · intro q d hm hws herr
    subst hm
    by_cases hq : q = query
    · simp [memoizeParseQuery, hq]
    · simp [memoizeParseQuery, memoizeParseQueryMiss, parseQuery, hq, hws, herr]
  · intro hm herr
    subst hm
    by_cases hws : isWhitespaceOnly query = true
    · simp [memoizeParseQuery, memoizeParseQueryMiss, parseQuery, hws]
    · simp [memoizeParseQuery, memoizeParseQueryMiss, parseQuery, hws, herr]
  · intro d hws hok
    match hm : memo with
    | none => simp [memoizeParseQuery, memoizeParseQueryMiss, parseQuery, hws, hok]
    | some (q, dm) =>
      by_cases hq : q = query
      · have hold := (hinv q dm rfl).2
        rw [hq, hok] at hold
        have hd : dm = d := by
          injection hold.symm
        subst hd
        simp [memoizeParseQuery, hq]
      · simp [memoizeParseQuery, memoizeParseQueryMiss, parseQuery, hq, hws, hok]
  · intro d hm parse2
    subst hm
    simp [memoizeParseQuery]
  · match hm : memo with
    | none =>
      by_cases hws : isWhitespaceOnly query = true
      · simpa [memoizeParseQuery, memoizeParseQueryMiss, parseQuery, hws] using hinv
      · match hp : parse query with
        | .error e =>
          simpa [memoizeParseQuery, memoizeParseQueryMiss, parseQuery, hws, hp] using hinv
        | .ok result =>
          simp only [memoizeParseQuery, memoizeParseQueryMiss, parseQuery]
          rw [if_neg hws, hp]
          intro q d hqd
          simp only [Option.some.injEq, Prod.mk.injEq] at hqd
          obtain ⟨hq, hd⟩ := hqd
          subst hq
          subst hd
          exact ⟨hws, hp⟩
    | some (q0, d0) =>
      by_cases hq : q0 = query
      · simpa [memoizeParseQuery, hq] using hinv
      · by_cases hws : isWhitespaceOnly query = true
        · simpa [memoizeParseQuery, memoizeParseQueryMiss, parseQuery, hq, hws] using hinv
        · match hp : parse query with
          | .error e =>
            simpa [memoizeParseQuery, memoizeParseQueryMiss, parseQuery, hq, hws, hp]
              using hinv
          | .ok result =>
            simp only [memoizeParseQuery, memoizeParseQueryMiss, parseQuery]
            rw [if_neg hq, if_neg hws, hp]
            intro q d hqd
            simp only [Option.some.injEq, Prod.mk.injEq] at hqd
            obtain ⟨hq2, hd⟩ := hqd
            subst hq2
            subst hd
            exact ⟨hws, hp⟩

def c4Doc : DocumentNode :=
  DocumentNode.mk [.operation 0 .query none [.field 1 none "viewer" [] [] none]]

def c4Text : String := "query with viewer"

def c4Parse (s : String) : Except Unit DocumentNode :=
  if s = c4Text then .ok c4Doc else .error ()

theorem memoizeParseQuery_spec_witness :
    (MemoInv c4Parse none ∧ ¬isWhitespaceOnly c4Text = true ∧ c4Parse c4Text = .ok c4Doc ∧
      c4Parse "query %%" = .error ()) ∧
    memoizeParseQuery c4Parse none c4Text = (some (c4Text, c4Doc), c4Doc) ∧
    memoizeParseQuery c4Parse (some (c4Text, c4Doc)) "query %%" =
      (some (c4Text, c4Doc), c4Doc) ∧
    memoizeParseQuery c4Parse none "   " = (none, DEFAULT_DOCUMENT) :=
  ⟨⟨fun q d h => Option.noConfusion h, by decide, rfl, rfl⟩,
   (memoizeParseQuery_spec c4Parse none c4Text
     (fun q d h => Option.noConfusion h)).2.2.2.2.1 c4Doc (by decide) rfl,
   (memoizeParseQuery_spec c4Parse (some (c4Text, c4Doc)) "query %%"
     (fun q d h => by
       simp only [Option.some.injEq, Prod.mk.injEq] at h
       obtain ⟨hq, hd⟩ := h
       subst hq
       subst hd
       exact ⟨by decide, rfl⟩)).2.2.1 c4Text c4Doc rfl (by decide) rfl,
   (memoizeParseQuery_spec c4Parse none "   "
     (fun q d h => Option.noConfusion h)).2.1 (by decide)⟩

/-! ## C8: scalar-input plugin registry -/

theorem find?_of_first_true {α : Type} (p : α → Bool) (l : List α) (i : Nat) (x : α)
    (hx : l[i]? = some x) (hpx : p x = true)
    (hbefore : ∀ j, j < i → ∀ q, l[j]? = some q → p q = false) :
    l.find? p = some x := by
  induction l generalizing i with
  | nil => simp at hx
  | cons a l ih =>
    cases i with
    | zero =>
      simp only [List.getElem?_cons_zero, Option.some.injEq] at hx
      subst hx
      simp [List.find?_cons, hpx]
    | succ n =>
      have ha : p a = false := hbefore 0 (Nat.succ_pos n) a (by simp)
      simp only [List.find?_cons, ha]
      exact ih n (by simpa using hx)
        (fun j hj q hq => hbefore (j + 1) (by omega) q (by simpa using hq))

/-- C8: `process` returns the rendering of the first plugin in list order
whose `canProcess` accepts the argument (`l[i]?` formulation: plugin `i`
is capable and everything before it is not), and `none` exactly when no
enabled plugin is capable; constructing the manager with the
bundled-plugins flag appends the bundled plugins after the caller's, so
whenever some caller plugin is capable its rendering wins over any
capable bundled plugin. -/
theorem pluginManager_first_match {Arg Style Change Rendering : Type}
    (bundledPlugins plugins : List (ScalarInputPlugin Arg Style Change Rendering))
    (arg : Arg) (styleConfig : Style) (onChangeHandler : Change) :
    (mkScalarInputPluginManager bundledPlugins plugins true =
      plugins ++ bundledPlugins) ∧
    (∀ (l : List (ScalarInputPlugin Arg Style Change Rendering)),
      processScalarInput l arg styleConfig onChangeHandler = none ↔
        ∀ p ∈ l, p.canProcess arg = false) ∧
    (∀ (l : List (ScalarInputPlugin Arg Style Change Rendering)) (i : Nat) (x : _),
      l[i]? = some x → x.canProcess arg = true →
      (∀ j, j < i → ∀ q, l[j]? = some q → q.canProcess arg = false) →
      processScalarInput l arg styleConfig onChangeHandler =
        some (x.render arg styleConfig onChangeHandler)) ∧
    (∀ p, plugins.find? (fun q => q.canProcess arg) = some p →
      processScalarInput (mkScalarInputPluginManager bundledPlugins plugins true)
        arg styleConfig onChangeHandler =
        some (p.render arg styleConfig onChangeHandler)) := by
  refine ⟨rfl, ?_, ?_, ?_⟩
  · intro l
    constructor
    · intro h p hp
      by_contra hc
      simp only [Bool.not_eq_false] at hc
      match hf : l.find? (fun plugin => plugin.canProcess arg) with
      | some handler =>
        simp only [processScalarInput, hf] at h
        exact Option.noConfusion h
      | none =>
        exact absurd hc (List.find?_eq_none.mp hf p hp)
    · intro h
      simp only [processScalarInput]
      rw [List.find?_eq_none.mpr (fun x hx => by simp [h x hx])]
  · intro l i x hx hpx hbefore
    simp only [processScalarInput]
    rw [find?_of_first_true (fun plugin => plugin.canProcess arg) l i x hx hpx hbefore]
  · intro p hp
    have hmk : mkScalarInputPluginManager bundledPlugins plugins true =
        plugins ++ bundledPlugins := rfl
    rw [hmk]
    simp only [processScalarInput]
    rw [List.find?_append, hp]
    rfl

def c8Caller : ScalarInputPlugin Nat Unit Unit String :=
  ScalarInputPlugin.mk (fun n => n == 0) (fun _ _ _ => "caller")

def c8Bundled : ScalarInputPlugin Nat Unit Unit String :=
  ScalarInputPlugin.mk (fun _ => true) (fun _ _ _ => "bundledDate")

theorem pluginManager_first_match_witness :
    ([c8Caller].find? (fun q => q.canProcess 0) = some c8Caller ∧
      c8Bundled.canProcess 0 = true) ∧
    processScalarInput (mkScalarInputPluginManager [c8Bundled] [c8Caller] true)
      0 () () = some "caller" ∧
    processScalarInput (mkScalarInputPluginManager [c8Bundled] [c8Caller] false)
      3 () () = none :=
  ⟨⟨rfl, rfl⟩,
   ((pluginManager_first_match [c8Bundled] [c8Caller] 0 () ()).2.2.2 c8Caller rfl).trans
     rfl,
   ((pluginManager_first_match [c8Bundled] [c8Caller] 3 () ()).2.1
     (mkScalarInputPluginManager [c8Bundled] [c8Caller] false)).mpr
     (by
       intro p hp
       have hp2 : p ∈ [c8Caller] := hp
       simp only [List.mem_singleton] at hp2
       subst hp2
       rfl)⟩
